import Mathlib

/-!
Verification development for the PyBEL JGIF adapter (`src/pybel/io/jgif.py`)
and the `convert` CLI exit policy (`src/pybel/cli.py`).

Python dictionaries with string keys and string values are embedded as
association lists (`StrDict`); accessing a missing key with `d[k]` is embedded
as an `Except PyError` computation returning `PyError.keyError k`, while
`d.get(k)` is embedded as an `Option`-valued field.  Python truthiness of a
string is emptiness; truthiness of a dict is non-emptiness.
-/

namespace PyBEL

/-- Python whitespace, as recognized by `str.strip()`. -/
def isPySpace (c : Char) : Bool :=
  c = ' ' ∨ c = '\t' ∨ c = '\n' ∨ c = '\x0b' ∨ c = '\x0c' ∨ c = '\r'

/-- Embedding of Python `str.strip()` (whitespace removal on both ends). -/
def pyStrip (s : String) : String :=
  String.mk (((s.toList.dropWhile isPySpace).reverse.dropWhile isPySpace).reverse)

/-- Lowercase one ASCII character (Python `str.lower()` on the inputs the
claims concern). -/
def lowerChar (c : Char) : Char :=
  if 'A' ≤ c ∧ c ≤ 'Z' then Char.ofNat (c.toNat + 32) else c

/-- Embedding of Python `str.lower()`. -/
def pyLower (s : String) : String := String.mk (s.toList.map lowerChar)

/-- A Python `dict[str, str]` as an association list. -/
abbrev StrDict := List (String × String)

/-- Embedding of `d[k]` as a partial lookup (`d.get(k)` in Python): the value
at the first entry whose key is `k`, if any. -/
def dictGet : StrDict → String → Option String
  | [], _ => none
  | p :: ps, k => if p.1 = k then some p.2 else dictGet ps k

/-- Embedding of `d[k] = v`: overwrite in place if present, append otherwise. -/
def dictSet (d : StrDict) (k v : String) : StrDict :=
  if (dictGet d k).isSome then
    d.map (fun p => if p.1 = k then (k, v) else p)
  else
    d ++ [(k, v)]

/-- Embedding of `d.update(e)`: fold `dictSet` over the entries of `e`. -/
def dictUpdate (d e : StrDict) : StrDict :=
  e.foldl (fun acc p => dictSet acc p.1 p.2) d

/-- Python exceptions that escape the JGIF adapter. -/
inductive PyError where
  | keyError (k : String) : PyError
  deriving Repr, DecidableEq

/-- Whether an `Except` computation succeeded (no exception escaped). -/
def exOk : Except ε α → Bool
  | Except.ok _ => true
  | Except.error _ => false

/-- Monadic map over a list in `Except`, processing records left to right and
stopping at the first uncaught exception (a Python `for` loop with writes). -/
def mapME (f : α → Except ε β) : List α → Except ε (List β)
  | [] => Except.ok []
  | x :: xs =>
    match f x with
    | Except.error e => Except.error e
    | Except.ok y =>
      match mapME f xs with
      | Except.error e => Except.error e
      | Except.ok ys => Except.ok (y :: ys)

/-- Monadic fold over a list in `Except`, processing records left to right and
stopping at the first uncaught exception. -/
def foldME (f : β → α → Except ε β) : β → List α → Except ε β
  | b, [] => Except.ok b
  | b, x :: xs =>
    match f b x with
    | Except.error e => Except.error e
    | Except.ok b' => foldME f b' xs

/-! ### Constants of `jgif.py` and of the constants module -/

/-- `annotation_map` from `jgif.py`. -/
def annotation_map : StrDict :=
  [("tissue", "Tissue"), ("disease", "Disease"),
   ("species_common_name", "Species"), ("cell", "Cell")]

/-- `species_map` from `jgif.py`. -/
def species_map : StrDict :=
  [("human", "9606"), ("rat", "10116"), ("mouse", "10090")]

/-- `placeholder_evidence` from `jgif.py`. -/
def placeholder_evidence : String :=
  "This Network edge has no supporting evidence.  Please add real evidence to this edge prior to deleting."

/-- Modelled from the spec: the constants module (not under `src/`) partitions
relations; UNQUALIFIED relations are context-independent, e.g. hasComponent,
hasMember, isA, partOf, translocates (spec, section 4.3). -/
def UNQUALIFIED_EDGES : List String :=
  ["hasComponent", "hasMember", "isA", "partOf", "translocates"]

/-- Modelled from the spec: the constants module (not under `src/`) fixes the
set of document-metadata keys copied on graph construction; the exact members
are immaterial to the claims, only membership filtering matters. -/
def METADATA_INSERT_KEYS : List String :=
  ["name", "version", "description", "authors", "contact", "copyright",
   "licenses", "disclaimer"]

/-- Modelled from the spec: the citation key for the reference type
(spec, section 3: citation is `\x7btype, reference, name\x7d`). -/
def CITATION_TYPE : String := "type"

/-- Modelled from the spec: the citation key for the reference identifier. -/
def CITATION_REFERENCE : String := "reference"

/-- Modelled from the spec: the citation key for the reference display name. -/
def CITATION_NAME : String := "name"

/-! ### JGIF input data model

Structures carry exactly the fields `jgif.py` accesses; an `Option` field is a
possibly absent dictionary key. -/

/-- One entry of an edge's `metadata.evidences` list. -/
structure JgifEvidence where
  citation : Option StrDict
  summary_text : Option String
  experiment_context : Option StrDict
  deriving Repr, DecidableEq

/-- The `metadata` object of a JGIF edge record. -/
structure JgifEdgeMeta where
  evidences : Option (List JgifEvidence)
  deriving Repr, DecidableEq

/-- A JGIF edge record. -/
structure JgifEdge where
  relation : Option String
  label : Option String
  metadata : Option JgifEdgeMeta
  deriving Repr, DecidableEq

/-- A JGIF node record. -/
structure JgifNode where
  label : Option String
  deriving Repr, DecidableEq

/-- The `graph` object of a JGIF document. -/
structure JgifGraph where
  label : Option String
  metadata : Option StrDict
  nodes : Option (List JgifNode)
  edges : Option (List JgifEdge)
  deriving Repr, DecidableEq

/-- A whole JGIF document (`graph_jgif_dict`). -/
structure JgifDoc where
  graph : Option JgifGraph
  deriving Repr, DecidableEq

/-! ### BEL graph data model (modelled from the spec, section 3) -/

/-- Modelled from the spec: a Warning record `\x7bline, kind, message\x7d`
accumulated on the graph (the struct module is not under `src/`). -/
structure Warning where
  line : Nat
  kind : String
  message : String
  deriving Repr, DecidableEq

/-- Modelled from the spec: the control context
`\x7bcitation, evidence, annotations\x7d` owned by a parser run
(spec, section 4.2); `citation = []` and `evidence = none` mean cleared. -/
structure ControlContext where
  citation : StrDict
  evidence : Option String
  annotations : StrDict
  deriving Repr, DecidableEq

/-- Modelled from the spec: an edge `(source, target, relation kind, context
snapshot)`; the context is captured by value at edge-creation time. -/
structure Edge where
  source : String
  relation : String
  target : String
  context : ControlContext
  deriving Repr, DecidableEq

/-- Modelled from the spec: the BELGraph owns nodes, edges, document metadata
and the warning list (the struct module is not under `src/`). -/
structure BELGraph where
  name : Option String
  document : StrDict
  nodes : List String
  edges : List Edge
  warnings : List Warning
  deriving Repr, DecidableEq

/-- Modelled from the spec: term-parse failures are NakedName warnings or
pyparsing ParseExceptions (spec, section 4.1); both are caught by the node
loop of `from_jgif`. -/
inductive TermError where
  | nakedName : TermError
  | parseException : TermError
  deriving Repr, DecidableEq

/-- Modelled from the spec: the BelParser (not under `src/`) abstracted to its
two call modes (spec, section 4.1): node-only term registration, returning the
canonical keys of the nodes a term registers, and full statement parsing,
returning the `(subject, relation, object)` triples of a statement.  Edge
context snapshotting is done by the driver below, per spec section 4.2. -/
structure ParserModel where
  parseTerm : String → Except TermError (List String)
  parseStatement : String → Except String (List (String × String × String))

/-! ### Graph assembler primitives (modelled from the spec, section 4.4) -/

/-- Modelled from the spec: `register_node`, insert-or-reuse by canonical key. -/
def registerNode (g : BELGraph) (n : String) : BELGraph :=
  if n ∈ g.nodes then g else { g with nodes := g.nodes ++ [n] }

/-- Modelled from the spec: `add_edge` with full-key de-duplication. -/
def addEdge (g : BELGraph) (e : Edge) : BELGraph :=
  if e ∈ g.edges then g else { g with edges := g.edges ++ [e] }

/-- Register both endpoints of a parsed triple and add its edge, snapshotting
the given control context by value. -/
def addTriple (ctx : ControlContext) (g : BELGraph) (t : String × String × String) : BELGraph :=
  let g1 := registerNode g t.1
  let g2 := registerNode g1 t.2.2
  addEdge g2 { source := t.1, relation := t.2.1, target := t.2.2, context := ctx }

/-! ### `from_jgif` (translated from `jgif.py`, lines 185-273) -/

/-- `get_citation` from `jgif.py`: builds the citation dict from
`evidence['citation']`; raises `KeyError` when `type` or `id` is absent. -/
def get_citation (ev : JgifEvidence) : Except PyError StrDict :=
  match ev.citation with
  | none => Except.error (PyError.keyError "citation")
  | some cit =>
    match dictGet cit "type" with
    | none => Except.error (PyError.keyError "type")
    | some t =>
      match dictGet cit "id" with
      | none => Except.error (PyError.keyError "id")
      | some r =>
        match dictGet cit "name" with
        | some n =>
          Except.ok [(CITATION_TYPE, pyStrip t), (CITATION_REFERENCE, pyStrip r),
                     (CITATION_NAME, pyStrip n)]
        | none =>
          Except.ok [(CITATION_TYPE, pyStrip t), (CITATION_REFERENCE, pyStrip r)]

/-- The node loop body of `from_jgif` (lines 208-220): a node without a label
is skipped; a label is parsed as a BEL term and its nodes registered;
NakedName and ParseException failures skip only this node. -/
def processNode (pm : ParserModel) (g : BELGraph) (node : JgifNode) : BELGraph :=
  match node.label with
  | none => g
  | some l =>
    match pm.parseTerm l with
    | Except.ok keys => keys.foldl registerNode g
    | Except.error _ => g

/-- One evidence record of the qualified-relation path (lines 249-271):
evidence without a (truthy) citation, or whose citation has neither `type` nor
`id`, or whose stripped `summary_text` is empty or the placeholder, is skipped;
otherwise the control context is cleared and rebuilt from this record alone and
the BEL statement is parsed, catching every parse failure. -/
def processEvidence (pm : ParserModel) (stmt : Option String) (g : BELGraph)
    (ev : JgifEvidence) : Except PyError BELGraph :=
  match ev.citation with
  | none => Except.ok g
  | some cit =>
    if cit = [] then Except.ok g
    else if (dictGet cit "type").isNone ∧ (dictGet cit "id").isNone then Except.ok g
    else
      match ev.summary_text with
      | none => Except.error (PyError.keyError "summary_text")
      | some st =>
        if pyStrip st = "" ∨ pyStrip st = placeholder_evidence then Except.ok g
        else
          match get_citation ev with
          | Except.error e => Except.error e
          | Except.ok citD =>
            match ev.experiment_context with
            | none => Except.error (PyError.keyError "experiment_context")
            | some ectx =>
              match stmt with
              | none => Except.ok g
              | some s =>
                match pm.parseStatement s with
                | Except.error _ => Except.ok g
                | Except.ok triples =>
                  Except.ok (triples.foldl
                    (addTriple
                      { citation := citD, evidence := some (pyStrip st),
                        annotations := dictUpdate [] ectx }) g)

/-- Whether `relation in UNQUALIFIED_EDGES` holds (a `None` relation is not a
member). -/
def relUnqualified : Option String → Bool
  | some r => UNQUALIFIED_EDGES.contains r
  | none => false

/-- The edge loop body of `from_jgif` (lines 222-271): `actsIn`/`translocates`
edges are skipped, edges without metadata are skipped, unqualified relations
fall into a no-op branch (`pass # FIXME?`), and qualified relations iterate
their evidences. -/
def processEdge (pm : ParserModel) (g : BELGraph) (edge : JgifEdge) :
    Except PyError BELGraph :=
  if edge.relation = some "actsIn" ∨ edge.relation = some "translocates" then Except.ok g
  else
    match edge.metadata with
    | none => Except.ok g
    | some md =>
      if relUnqualified edge.relation then Except.ok g
      else
        match md.evidences with
        | none => Except.ok g
        | some evs =>
          if evs = [] then Except.ok g
          else foldME (processEvidence pm edge.label) g evs

/-- The metadata insertion of `from_jgif` (lines 198-203): copy into the empty
document exactly those metadata keys that are in `METADATA_INSERT_KEYS`. -/
def insertMetadata (md : StrDict) : StrDict :=
  METADATA_INSERT_KEYS.foldl
    (fun acc k =>
      match dictGet md k with
      | some v => dictSet acc k v
      | none => acc) []

/-- `from_jgif` from `jgif.py`: builds a BELGraph from a JGIF document, reading
`label` and filtered `metadata` into the graph header, running the node loop,
then the edge loop; missing `graph`/`nodes`/`edges` keys raise `KeyError`. -/
def from_jgif (pm : ParserModel) (doc : JgifDoc) : Except PyError BELGraph :=
  match doc.graph with
  | none => Except.error (PyError.keyError "graph")
  | some root =>
    match root.nodes with
    | none => Except.error (PyError.keyError "nodes")
    | some ns =>
      match root.edges with
      | none => Except.error (PyError.keyError "edges")
      | some es =>
        foldME (processEdge pm)
          (ns.foldl (processNode pm)
            { name := root.label
              document :=
                match root.metadata with
                | some md => insertMetadata md
                | none => []
              nodes := [], edges := [], warnings := [] }) es

/-! ### `map_cbn` (translated from `jgif.py`, lines 66-128) -/

/-- The inner loop of `map_cbn` over one `experiment_context` (lines 88-108):
falsy or whitespace-only values are dropped; keys are stripped and lowercased;
`species_common_name` values are mapped through `species_map` (raising
`KeyError` on an unknown species); other keys are renamed via
`annotation_map` when present there. -/
def cbnStep (acc : StrDict) (p : String × String) : Except PyError StrDict :=
  if p.2 = "" then Except.ok acc
  else if pyStrip p.2 = "" then Except.ok acc
  else if pyLower (pyStrip p.1) = "species_common_name" then
    match dictGet species_map (pyLower (pyStrip p.2)) with
    | some tax => Except.ok (dictSet acc "Species" tax)
    | none => Except.error (PyError.keyError (pyLower (pyStrip p.2)))
  else
    match dictGet annotation_map (pyLower (pyStrip p.1)) with
    | some k2 => Except.ok (dictSet acc k2 (pyStrip p.2))
    | none => Except.ok (dictSet acc (pyLower (pyStrip p.1)) (pyStrip p.2))

def cbnNewContext (ctx : StrDict) : Except PyError StrDict :=
  foldME cbnStep [] ctx

/-- One evidence record of `map_cbn` (lines 82-126): only the
`experiment_context` field is replaced, and only when present. -/
def map_cbn_evidence (ev : JgifEvidence) : Except PyError JgifEvidence :=
  match ev.experiment_context with
  | none => Except.ok ev
  | some ctx =>
    match cbnNewContext ctx with
    | Except.error e => Except.error e
    | Except.ok ctx' => Except.ok { ev with experiment_context := some ctx' }

/-- One edge record of `map_cbn` (lines 75-82): edges without metadata or
without evidences are left untouched. -/
def map_cbn_edge (e : JgifEdge) : Except PyError JgifEdge :=
  match e.metadata with
  | none => Except.ok e
  | some md =>
    match md.evidences with
    | none => Except.ok e
    | some evs =>
      match mapME map_cbn_evidence evs with
      | Except.error er => Except.error er
      | Except.ok evs' =>
        Except.ok { e with metadata := some { md with evidences := some evs' } }

/-- `map_cbn` from `jgif.py`: pre-processes CBN JGIF in place, rewriting each
evidence's `experiment_context` and nothing else. -/
def map_cbn (d : JgifDoc) : Except PyError JgifDoc :=
  match d.graph with
  | none => Except.error (PyError.keyError "graph")
  | some root =>
    match root.edges with
    | none => Except.error (PyError.keyError "edges")
    | some es =>
      match mapME map_cbn_edge es with
      | Except.error er => Except.error er
      | Except.ok es' =>
        Except.ok { d with graph := some { root with edges := some es' } }

/-! ### `convert` CLI exit policy (translated from `cli.py`, line 132) -/

/-- The exit status of the `convert` command:
`sys.exit(0 if 0 == len(g.warnings) else 1)`. -/
def convert_exit_code (g : BELGraph) : Nat :=
  if g.warnings.length = 0 then 0 else 1

/-! ### Derived predicates used in the theorem statements -/

/-- The header of a BEL graph: its name, document metadata and warnings. -/
def graphHeader (g : BELGraph) : Option String × StrDict × List Warning :=
  (g.name, g.document, g.warnings)

/-- The control context that `from_jgif` derives from a single evidence record
on the qualified-relation path: the citation built by `get_citation`, the
stripped `summary_text`, and the record's own `experiment_context` applied to a
cleared annotation dictionary. -/
def evidenceContext (ev : JgifEvidence) : Option ControlContext :=
  match ev.summary_text, ev.experiment_context, get_citation ev with
  | some st, some ectx, Except.ok citD =>
    some { citation := citD, evidence := some (pyStrip st),
           annotations := dictUpdate [] ectx }
  | _, _, _ => none

/-- The evidence-text conditions under which `from_jgif` accepts a record:
`summary_text` present, non-blank after stripping, and not the placeholder. -/
def evidenceUsable (ev : JgifEvidence) : Prop :=
  ∃ st, ev.summary_text = some st ∧ pyStrip st ≠ "" ∧
    pyStrip st ≠ placeholder_evidence

/-- `ev` is one of the evidence records of one of the edges of `doc`. -/
def evidenceOfDoc (doc : JgifDoc) (ev : JgifEvidence) : Prop :=
  ∃ root es ed md evs, doc.graph = some root ∧ root.edges = some es ∧
    ed ∈ es ∧ ed.metadata = some md ∧ md.evidences = some evs ∧ ev ∈ evs

/-- Structural completeness of one evidence record: `summary_text` and
`experiment_context` keys present, and any citation carrying `type` exactly
when it carries `id`.  Sufficient for `from_jgif` not to raise on the record. -/
def evidenceWFb (ev : JgifEvidence) : Bool :=
  ev.summary_text.isSome && ev.experiment_context.isSome &&
    (match ev.citation with
     | none => true
     | some cit => (dictGet cit "type").isSome == (dictGet cit "id").isSome)

/-- Structural completeness of one edge record: every evidence record it
carries is structurally complete. -/
def edgeWFb (ed : JgifEdge) : Bool :=
  match ed.metadata with
  | none => true
  | some md =>
    match md.evidences with
    | none => true
    | some evs => evs.all evidenceWFb

/-- Structural completeness of a JGIF document: the `graph`, `nodes` and
`edges` keys are present and every evidence record is structurally complete. -/
def docWFb (doc : JgifDoc) : Bool :=
  match doc.graph with
  | none => false
  | some root =>
    root.nodes.isSome &&
      (match root.edges with
       | none => false
       | some es => es.all edgeWFb)

/-- `map_cbn` rewrites one evidence record to another: everything but the
`experiment_context` is untouched, and a present `experiment_context` is
replaced by the successful result of the CBN context rewrite. -/
def cbnEvFrame (ev ev' : JgifEvidence) : Prop :=
  (ev.experiment_context = none ∧ ev' = ev) ∨
    ∃ ctx ctx', ev.experiment_context = some ctx ∧
      cbnNewContext ctx = Except.ok ctx' ∧
      ev' = { ev with experiment_context := some ctx' }

/-- `map_cbn` rewrites one edge record to another: relation and label are
untouched, and either the metadata is untouched or only the evidence records
are rewritten pairwise by `cbnEvFrame`. -/
def cbnEdgeFrame (e e' : JgifEdge) : Prop :=
  e'.relation = e.relation ∧ e'.label = e.label ∧
    (e'.metadata = e.metadata ∨
      ∃ md evs evs', e.metadata = some md ∧ md.evidences = some evs ∧
        e'.metadata = some { md with evidences := some evs' } ∧
        List.Forall₂ cbnEvFrame evs evs')

/-! ### Concrete inputs used by witnesses and counterexamples -/

/-- A concrete parser behavior for evaluating the driver on closed inputs:
every term is one node, every statement is one `increases` triple. -/
def pmTest : ParserModel :=
  { parseTerm := fun s => Except.ok [s]
    parseStatement := fun s => Except.ok [(s ++ "_subj", "increases", s ++ "_obj")] }

/-- The empty BEL graph. -/
def emptyGraph : BELGraph :=
  { name := none, document := [], nodes := [], edges := [], warnings := [] }

/-- A JGIF document whose only edge is an unqualified `hasComponent` relation
with no citation and no evidence anywhere. -/
def docUnqual : JgifDoc :=
  { graph := some
      { label := none, metadata := none, nodes := some []
        edges := some
          [{ relation := some "hasComponent"
             label := some "complex(p(HGNC:A),p(HGNC:B)) hasComponent p(HGNC:A)"
             metadata := some { evidences := none } }] } }

/-- An unqualified edge record with an evidence list, for the C1 witness. -/
def edgeUnqual : JgifEdge :=
  { relation := some "hasComponent"
    label := some "complex(p(HGNC:A),p(HGNC:B)) hasComponent p(HGNC:A)"
    metadata := some
      { evidences := some
          [{ citation := some [("type", "PubMed"), ("id", "1")]
             summary_text := some "text", experiment_context := some [] }] } }

/-- A JGIF document whose only edge is qualified and whose only evidence
record carries a citation but no `summary_text` key. -/
def docNoSummary : JgifDoc :=
  { graph := some
      { label := none, metadata := none, nodes := some []
        edges := some
          [{ relation := some "increases", label := some "stmt"
             metadata := some
               { evidences := some
                   [{ citation := some [("type", "PubMed"), ("id", "123")]
                      summary_text := none, experiment_context := some [] }] } }] } }

/-- A JGIF document whose only edge is qualified and whose only evidence
record lacks a citation. -/
def docNoCitation : JgifDoc :=
  { graph := some
      { label := none, metadata := none, nodes := some []
        edges := some
          [{ relation := some "increases", label := some "stmt"
             metadata := some
               { evidences := some
                   [{ citation := none, summary_text := some "real evidence"
                      experiment_context := some [] }] } }] } }

/-- An evidence record lacking a citation, for the C3 witness. -/
def evNoCitation : JgifEvidence :=
  { citation := none, summary_text := some "text", experiment_context := none }

/-- A fully populated JGIF document: label, metadata with one insertable and
one extraneous key, one node and one qualified edge with complete evidence. -/
def docFull : JgifDoc :=
  { graph := some
      { label := some "G"
        metadata := some [("description", "d"), ("junk", "j")]
        nodes := some [{ label := some "p(HGNC:X)" }]
        edges := some
          [{ relation := some "increases", label := some "stmt4"
             metadata := some
               { evidences := some
                   [{ citation := some
                        [("type", "PubMed"), ("id", "123"), ("name", "Paper")]
                      summary_text := some " Strong evidence "
                      experiment_context := some [("Species", "9606")] }] } }] } }

/-- The BEL graph `from_jgif pmTest docFull` evaluates to. -/
def gFull : BELGraph :=
  { name := some "G", document := [("description", "d")]
    nodes := ["p(HGNC:X)", "stmt4_subj", "stmt4_obj"]
    edges :=
      [{ source := "stmt4_subj", relation := "increases", target := "stmt4_obj"
         context :=
           { citation := [("type", "PubMed"), ("reference", "123"), ("name", "Paper")]
             evidence := some "Strong evidence"
             annotations := [("Species", "9606")] } }]
    warnings := [] }

/-- A node record with a parseable label, for the C6 witness. -/
def nodeX : JgifNode := { label := some "p(HGNC:X)" }

/-- A graph with one warning, for the C7 witness. -/
def gWarn : BELGraph :=
  { name := none, document := [], nodes := [], edges := []
    warnings := [{ line := 1, kind := "NakedName", message := "m" }] }

/-- A CBN document whose species value is whitespace only: truthy, but blank
after stripping, so `map_cbn` skips it without a `KeyError`. -/
def docSpeciesBlank : JgifDoc :=
  { graph := some
      { label := none, metadata := none, nodes := some []
        edges := some
          [{ relation := some "increases", label := none
             metadata := some
               { evidences := some
                   [{ citation := none, summary_text := none
                      experiment_context := some [("species_common_name", "  ")] }] } }] } }

/-- An evidence record with an unknown species name, for the C9 witness. -/
def evDog : JgifEvidence :=
  { citation := none, summary_text := none
    experiment_context := some [("species_common_name", " Dog ")] }

/-- The metadata object holding `evDog`. -/
def mdDog : JgifEdgeMeta := { evidences := some [evDog] }

/-- The edge record holding `mdDog`. -/
def edDog : JgifEdge :=
  { relation := some "increases", label := none, metadata := some mdDog }

/-- The graph object holding `edDog`. -/
def rootDog : JgifGraph :=
  { label := none, metadata := none, nodes := some [], edges := some [edDog] }

/-- A CBN document with an unknown species name, for the C9 witness. -/
def docSpeciesDog : JgifDoc := { graph := some rootDog }

/-- The JGIF document `map_cbn docFull` evaluates to: only the evidence's
`experiment_context` is rewritten (the `Species` key is lowercased to
`species`, which is not in `annotation_map`). -/
def docFullCbn : JgifDoc :=
  { graph := some
      { label := some "G"
        metadata := some [("description", "d"), ("junk", "j")]
        nodes := some [{ label := some "p(HGNC:X)" }]
        edges := some
          [{ relation := some "increases", label := some "stmt4"
             metadata := some
               { evidences := some
                   [{ citation := some
                        [("type", "PubMed"), ("id", "123"), ("name", "Paper")]
                      summary_text := some " Strong evidence "
                      experiment_context := some [("species", "9606")] }] } }] } }

/-! ### Generic lemmas about `mapME`, `foldME` and `List.foldl` -/

theorem mapME_ok_forall2 {α β ε : Type} {f : α → Except ε β} :
    ∀ {xs : List α} {ys : List β}, mapME f xs = Except.ok ys →
      List.Forall₂ (fun x y => f x = Except.ok y) xs ys := by
  intro xs
  induction xs with
  | nil =>
    intro ys h
    simp only [mapME] at h
    cases h
    exact List.Forall₂.nil
  | cons x xs ih =>
    intro ys h
    simp only [mapME] at h
    split at h
    · exact Except.noConfusion h
    · split at h
      · exact Except.noConfusion h
      · cases h
        exact List.Forall₂.cons (by assumption) (ih (by assumption))

theorem mapME_error_of_mem {α β ε : Type} {f : α → Except ε β} {x : α} :
    ∀ {xs : List α}, x ∈ xs → exOk (f x) = false → exOk (mapME f xs) = false := by
  intro xs
  induction xs with
  | nil => intro hx _; cases hx
  | cons y ys ih =>
    intro hx hbad
    simp only [mapME]
    cases hfy : f y with
    | error e => simp [exOk]
    | ok b =>
      rcases List.mem_cons.mp hx with h1 | h2
      · subst h1
        rw [hfy] at hbad
        simp [exOk] at hbad
      · have htl := ih h2 hbad
        cases hys : mapME f ys with
        | error e => simp [exOk]
        | ok zs => rw [hys] at htl; simp [exOk] at htl

theorem foldME_ok_of_forall {β α ε : Type} {f : β → α → Except ε β} :
    ∀ {xs : List α} {b : β}, (∀ b' x, x ∈ xs → exOk (f b' x) = true) →
      exOk (foldME f b xs) = true := by
  intro xs
  induction xs with
  | nil => intro b _; rfl
  | cons x xs ih =>
    intro b h
    simp only [foldME]
    cases hfx : f b x with
    | error e =>
      have hx := h b x (List.mem_cons_self x xs)
      rw [hfx] at hx
      simp [exOk] at hx
    | ok b' =>
      exact ih (fun b'' y hy => h b'' y (List.mem_cons_of_mem x hy))

theorem foldME_error_of_mem {β α ε : Type} {f : β → α → Except ε β} {x : α} :
    ∀ {xs : List α} {b : β}, x ∈ xs → (∀ b', exOk (f b' x) = false) →
      exOk (foldME f b xs) = false := by
  intro xs
  induction xs with
  | nil => intro b hx _; cases hx
  | cons y ys ih =>
    intro b hx hbad
    simp only [foldME]
    cases hfy : f b y with
    | error e => simp [exOk]
    | ok b' =>
      rcases List.mem_cons.mp hx with h1 | h2
      · subst h1
        have hb := hbad b
        rw [hfy] at hb
        simp [exOk] at hb
      · exact ih h2 hbad

theorem foldl_proj {β α γ : Type} (proj : β → γ) (f : β → α → β)
    (h : ∀ b x, proj (f b x) = proj b) :
    ∀ (xs : List α) (b : β), proj (xs.foldl f b) = proj b := by
  intro xs
  induction xs with
  | nil => intro b; rfl
  | cons x xs ih => intro b; rw [List.foldl_cons, ih, h]

theorem foldME_proj {β α γ ε : Type} (proj : β → γ) (f : β → α → Except ε β)
    (h : ∀ b x b', f b x = Except.ok b' → proj b' = proj b) :
    ∀ {xs : List α} {b b' : β}, foldME f b xs = Except.ok b' → proj b' = proj b := by
  intro xs
  induction xs with
  | nil =>
    intro b b' hf
    simp only [foldME] at hf
    cases hf
    rfl
  | cons x xs ih =>
    intro b b' hf
    simp only [foldME] at hf
    split at hf
    · exact Except.noConfusion hf
    · exact (ih hf).trans (h b x _ (by assumption))

/-! ### Dictionary lemmas -/

theorem dictGet_append (d e : StrDict) (k : String) :
    dictGet (d ++ e) k =
      match dictGet d k with
      | some v => some v
      | none => dictGet e k := by
  induction d with
  | nil => rfl
  | cons p ps ih =>
    by_cases h : p.1 = k
    · simp [dictGet, h]
    · simp only [List.cons_append, dictGet, if_neg h]
      exact ih

theorem dictGet_map_set_ne {k k' v : String} (hne : k' ≠ k) :
    ∀ (d : StrDict),
      dictGet (d.map fun p => if p.1 = k then (k, v) else p) k' = dictGet d k' := by
  intro d
  induction d with
  | nil => rfl
  | cons p ps ih =>
    simp only [List.map_cons]
    by_cases h : p.1 = k
    · rw [if_pos h]
      have h1 : ¬ (k = k') := fun hh => hne hh.symm
      have h2 : ¬ (p.1 = k') := fun hh => h1 (h.symm.trans hh)
      simp only [dictGet, if_neg h1, if_neg h2, ih]
    · rw [if_neg h]
      by_cases hpk : p.1 = k'
      · simp only [dictGet, if_pos hpk]
      · simp only [dictGet, if_neg hpk, ih]

theorem dictGet_map_set_eq {k v : String} :
    ∀ {d : StrDict}, (dictGet d k).isSome = true →
      dictGet (d.map fun p => if p.1 = k then (k, v) else p) k = some v := by
  intro d
  induction d with
  | nil => intro h; simp [dictGet] at h
  | cons p ps ih =>
    intro h
    simp only [List.map_cons]
    by_cases hp : p.1 = k
    · rw [if_pos hp]
      simp [dictGet]
    · rw [if_neg hp]
      simp only [dictGet, if_neg hp] at h ⊢
      exact ih h

theorem dictGet_dictSet (d : StrDict) (k v k' : String) :
    dictGet (dictSet d k v) k' = if k' = k then some v else dictGet d k' := by
  unfold dictSet
  by_cases hin : (dictGet d k).isSome = true
  · rw [if_pos hin]
    by_cases hk : k' = k
    · subst hk
      rw [if_pos rfl]
      exact dictGet_map_set_eq hin
    · rw [if_neg hk]
      exact dictGet_map_set_ne hk d
  · rw [if_neg hin, dictGet_append]
    by_cases hk : k' = k
    · subst hk
      have hnone : dictGet d k' = none := by
        cases hd : dictGet d k' with
        | none => rfl
        | some w => rw [hd] at hin; simp at hin
      rw [hnone, if_pos rfl]
      simp [dictGet]
    · cases hd : dictGet d k' with
      | none =>
        have : ¬ (k = k') := fun hh => hk hh.symm
        simp [dictGet, this, if_neg hk]
      | some w => rw [if_neg hk]

/-! ### Preservation lemmas for the graph assembler -/

theorem registerNode_header (g : BELGraph) (n : String) :
    graphHeader (registerNode g n) = graphHeader g := by
  unfold registerNode
  split <;> rfl

theorem registerNode_edges (g : BELGraph) (n : String) :
    (registerNode g n).edges = g.edges := by
  unfold registerNode
  split <;> rfl

theorem registerNode_mono {g : BELGraph} {m : String} (n : String)
    (h : m ∈ g.nodes) : m ∈ (registerNode g n).nodes := by
  unfold registerNode
  split
  · exact h
  · exact List.mem_append_left _ h

theorem registerNode_self (g : BELGraph) (n : String) :
    n ∈ (registerNode g n).nodes := by
  unfold registerNode
  split
  · assumption
  · exact List.mem_append_right _ (List.mem_singleton.mpr rfl)

theorem addEdge_header (g : BELGraph) (e : Edge) :
    graphHeader (addEdge g e) = graphHeader g := by
  unfold addEdge
  split <;> rfl

theorem addEdge_mem {g : BELGraph} {e e' : Edge}
    (h : e' ∈ (addEdge g e).edges) : e' ∈ g.edges ∨ e' = e := by
  unfold addEdge at h
  split at h
  · exact Or.inl h
  · rcases List.mem_append.mp h with h1 | h1
    · exact Or.inl h1
    · exact Or.inr (List.mem_singleton.mp h1)

theorem addTriple_header (ctx : ControlContext) (g : BELGraph)
    (t : String × String × String) :
    graphHeader (addTriple ctx g t) = graphHeader g := by
  unfold addTriple
  rw [addEdge_header, registerNode_header, registerNode_header]

theorem addTriple_mem {ctx : ControlContext} {g : BELGraph}
    {t : String × String × String} {e : Edge}
    (h : e ∈ (addTriple ctx g t).edges) : e ∈ g.edges ∨ e.context = ctx := by
  unfold addTriple at h
  rcases addEdge_mem h with h1 | h1
  · rw [registerNode_edges, registerNode_edges] at h1
    exact Or.inl h1
  · subst h1
    exact Or.inr rfl

theorem foldl_addTriple_header (ctx : ControlContext)
    (ts : List (String × String × String)) (g : BELGraph) :
    graphHeader (ts.foldl (addTriple ctx) g) = graphHeader g :=
  foldl_proj graphHeader (addTriple ctx) (addTriple_header ctx) ts g

theorem foldl_addTriple_mem (ctx : ControlContext) :
    ∀ {ts : List (String × String × String)} {g : BELGraph} {e : Edge},
      e ∈ (ts.foldl (addTriple ctx) g).edges → e ∈ g.edges ∨ e.context = ctx := by
  intro ts
  induction ts with
  | nil => intro g e h; exact Or.inl h
  | cons t ts ih =>
    intro g e h
    rw [List.foldl_cons] at h
    rcases ih h with h1 | h1
    · exact addTriple_mem h1
    · exact Or.inr h1

/-! ### Case analyses of the `from_jgif` driver -/

theorem processNode_cases (pm : ParserModel) (g : BELGraph) (node : JgifNode) :
    processNode pm g node = g ∨
      ∃ l keys, node.label = some l ∧ pm.parseTerm l = Except.ok keys ∧
        processNode pm g node = keys.foldl registerNode g := by
  cases hl : node.label with
  | none =>
    left
    simp [processNode, hl]
  | some l =>
    cases hk : pm.parseTerm l with
    | error e =>
      left
      simp [processNode, hl, hk]
    | ok keys =>
      right
      exact ⟨l, keys, rfl, hk, by simp [processNode, hl, hk]⟩

theorem processNode_header (pm : ParserModel) (g : BELGraph) (node : JgifNode) :
    graphHeader (processNode pm g node) = graphHeader g := by
  rcases processNode_cases pm g node with h | ⟨l, keys, _, _, h⟩
  · rw [h]
  · rw [h]
    exact foldl_proj graphHeader registerNode registerNode_header keys g

theorem processNode_edges (pm : ParserModel) (g : BELGraph) (node : JgifNode) :
    (processNode pm g node).edges = g.edges := by
  rcases processNode_cases pm g node with h | ⟨l, keys, _, _, h⟩
  · rw [h]
  · rw [h]
    exact foldl_proj (fun g => g.edges) registerNode registerNode_edges keys g

theorem processEvidence_ok_cases {pm : ParserModel} {stmt : Option String}
    {g : BELGraph} {ev : JgifEvidence} {g' : BELGraph}
    (h : processEvidence pm stmt g ev = Except.ok g') :
    g' = g ∨ ∃ (ctx : ControlContext) (triples : List (String × String × String)),
      evidenceContext ev = some ctx ∧ evidenceUsable ev ∧
      g' = triples.foldl (addTriple ctx) g := by
  cases hcit : ev.citation with
  | none =>
    simp only [processEvidence, hcit] at h
    cases h
    exact Or.inl rfl
  | some cit =>
    by_cases hcnil : cit = []
    · simp only [processEvidence, hcit, if_pos hcnil] at h
      cases h
      exact Or.inl rfl
    · by_cases hci : (dictGet cit "type").isNone ∧ (dictGet cit "id").isNone
      · simp only [processEvidence, hcit, if_neg hcnil, if_pos hci] at h
        cases h
        exact Or.inl rfl
      · cases hsum : ev.summary_text with
        | none =>
          simp only [processEvidence, hcit, if_neg hcnil, if_neg hci, hsum] at h
          exact Except.noConfusion h
        | some st =>
          by_cases hne : pyStrip st = "" ∨ pyStrip st = placeholder_evidence
          · simp only [processEvidence, hcit, if_neg hcnil, if_neg hci, hsum,
              if_pos hne] at h
            cases h
            exact Or.inl rfl
          · cases hgc : get_citation ev with
            | error e =>
              simp only [processEvidence, hcit, if_neg hcnil, if_neg hci, hsum,
                if_neg hne, hgc] at h
              exact Except.noConfusion h
            | ok citD =>
              cases hectx : ev.experiment_context with
              | none =>
                simp only [processEvidence, hcit, if_neg hcnil, if_neg hci, hsum,
                  if_neg hne, hgc, hectx] at h
                exact Except.noConfusion h
              | some ectx =>
                cases stmt with
                | none =>
                  simp only [processEvidence, hcit, if_neg hcnil, if_neg hci, hsum,
                    if_neg hne, hgc, hectx] at h
                  cases h
                  exact Or.inl rfl
                | some s =>
                  cases hp : pm.parseStatement s with
                  | error e =>
                    simp only [processEvidence, hcit, if_neg hcnil, if_neg hci, hsum,
                      if_neg hne, hgc, hectx, hp] at h
                    cases h
                    exact Or.inl rfl
                  | ok triples =>
                    simp only [processEvidence, hcit, if_neg hcnil, if_neg hci, hsum,
                      if_neg hne, hgc, hectx, hp] at h
                    cases h
                    refine Or.inr
                      ⟨{ citation := citD, evidence := some (pyStrip st),
                         annotations := dictUpdate [] ectx }, triples, ?_, ?_, rfl⟩
                    · unfold evidenceContext
                      rw [hsum, hectx, hgc]
                    · exact ⟨st, hsum, fun h1 => hne (Or.inl h1),
                        fun h2 => hne (Or.inr h2)⟩

theorem processEvidence_header {pm : ParserModel} {stmt : Option String}
    {g : BELGraph} {ev : JgifEvidence} {g' : BELGraph}
    (h : processEvidence pm stmt g ev = Except.ok g') :
    graphHeader g' = graphHeader g := by
  rcases processEvidence_ok_cases h with h1 | ⟨ctx, triples, _, _, h1⟩
  · rw [h1]
  · rw [h1]
    exact foldl_addTriple_header ctx triples g

theorem processEvidence_mem {pm : ParserModel} {stmt : Option String}
    {g : BELGraph} {ev : JgifEvidence} {g' : BELGraph}
    (h : processEvidence pm stmt g ev = Except.ok g') {e : Edge}
    (he : e ∈ g'.edges) :
    e ∈ g.edges ∨ (evidenceContext ev = some e.context ∧ evidenceUsable ev) := by
  rcases processEvidence_ok_cases h with h1 | ⟨ctx, triples, hctx, husable, h1⟩
  · rw [h1] at he
    exact Or.inl he
  · rw [h1] at he
    rcases foldl_addTriple_mem ctx he with h2 | h2
    · exact Or.inl h2
    · exact Or.inr ⟨h2 ▸ hctx, husable⟩

theorem foldME_processEvidence_header {pm : ParserModel} {stmt : Option String}
    {evs : List JgifEvidence} {g g' : BELGraph}
    (hf : foldME (processEvidence pm stmt) g evs = Except.ok g') :
    graphHeader g' = graphHeader g :=
  foldME_proj graphHeader (processEvidence pm stmt)
    (fun _ _ _ hb => processEvidence_header hb) hf

theorem foldME_processEvidence_mem {pm : ParserModel} {stmt : Option String} :
    ∀ {evs : List JgifEvidence} {g g' : BELGraph},
      foldME (processEvidence pm stmt) g evs = Except.ok g' →
      ∀ {e : Edge}, e ∈ g'.edges →
        e ∈ g.edges ∨ ∃ ev ∈ evs, evidenceContext ev = some e.context ∧
          evidenceUsable ev := by
  intro evs
  induction evs with
  | nil =>
    intro g g' hf e he
    simp only [foldME] at hf
    cases hf
    exact Or.inl he
  | cons ev evs ih =>
    intro g g' hf e he
    simp only [foldME] at hf
    split at hf
    · exact Except.noConfusion hf
    next g1 hok =>
      rcases ih hf he with h1 | ⟨ev', hmem, hctx⟩
      · rcases processEvidence_mem hok h1 with h2 | h2
        · exact Or.inl h2
        · exact Or.inr ⟨ev, List.mem_cons_self ev evs, h2.1, h2.2⟩
      · exact Or.inr ⟨ev', List.mem_cons_of_mem ev hmem, hctx⟩

theorem processEdge_ok_cases {pm : ParserModel} {g : BELGraph} {edge : JgifEdge}
    {g' : BELGraph} (h : processEdge pm g edge = Except.ok g') :
    g' = g ∨ ∃ md evs, edge.metadata = some md ∧ md.evidences = some evs ∧
      foldME (processEvidence pm edge.label) g evs = Except.ok g' := by
  unfold processEdge at h
  split at h
  · cases h
    exact Or.inl rfl
  · split at h
    · cases h
      exact Or.inl rfl
    next md hmd =>
      split at h
      · cases h
        exact Or.inl rfl
      · split at h
        · cases h
          exact Or.inl rfl
        next evs hevs =>
          split at h
          · cases h
            exact Or.inl rfl
          · exact Or.inr ⟨md, evs, hmd, hevs, h⟩

theorem processEdge_header {pm : ParserModel} {g : BELGraph} {edge : JgifEdge}
    {g' : BELGraph} (h : processEdge pm g edge = Except.ok g') :
    graphHeader g' = graphHeader g := by
  rcases processEdge_ok_cases h with h1 | ⟨md, evs, _, _, hf⟩
  · rw [h1]
  · exact foldME_processEvidence_header hf

theorem processEdge_mem {pm : ParserModel} {g : BELGraph} {edge : JgifEdge}
    {g' : BELGraph} (h : processEdge pm g edge = Except.ok g')
    {e : Edge} (he : e ∈ g'.edges) :
    e ∈ g.edges ∨ ∃ md evs ev, edge.metadata = some md ∧
      md.evidences = some evs ∧ ev ∈ evs ∧
      evidenceContext ev = some e.context ∧ evidenceUsable ev := by
  rcases processEdge_ok_cases h with h1 | ⟨md, evs, hmd, hevs, hf⟩
  · rw [h1] at he
    exact Or.inl he
  · rcases foldME_processEvidence_mem hf he with h1 | ⟨ev, hmem, hctx, hus⟩
    · exact Or.inl h1
    · exact Or.inr ⟨md, evs, ev, hmd, hevs, hmem, hctx, hus⟩

theorem foldME_processEdge_header {pm : ParserModel} {es : List JgifEdge}
    {g g' : BELGraph} (hf : foldME (processEdge pm) g es = Except.ok g') :
    graphHeader g' = graphHeader g :=
  foldME_proj graphHeader (processEdge pm) (fun _ _ _ hb => processEdge_header hb) hf

theorem foldME_processEdge_mem {pm : ParserModel} :
    ∀ {es : List JgifEdge} {g g' : BELGraph},
      foldME (processEdge pm) g es = Except.ok g' →
      ∀ {e : Edge}, e ∈ g'.edges →
        e ∈ g.edges ∨ ∃ ed ∈ es, ∃ md evs ev, ed.metadata = some md ∧
          md.evidences = some evs ∧ ev ∈ evs ∧
          evidenceContext ev = some e.context ∧ evidenceUsable ev := by
  intro es
  induction es with
  | nil =>
    intro g g' hf e he
    simp only [foldME] at hf
    cases hf
    exact Or.inl he
  | cons ed es ih =>
    intro g g' hf e he
    simp only [foldME] at hf
    split at hf
    · exact Except.noConfusion hf
    next g1 hok =>
      rcases ih hf he with h1 | ⟨ed', hmem, rest⟩
      · rcases processEdge_mem hok h1 with h2 | ⟨md, evs, ev, h3⟩
        · exact Or.inl h2
        · exact Or.inr ⟨ed, List.mem_cons_self ed es, md, evs, ev, h3⟩
      · exact Or.inr ⟨ed', List.mem_cons_of_mem ed hmem, rest⟩

theorem from_jgif_ok_elim {pm : ParserModel} {doc : JgifDoc} {g : BELGraph}
    (h : from_jgif pm doc = Except.ok g) :
    ∃ root ns es, doc.graph = some root ∧ root.nodes = some ns ∧
      root.edges = some es ∧
      foldME (processEdge pm)
        (ns.foldl (processNode pm)
          { name := root.label
            document :=
              match root.metadata with
              | some md => insertMetadata md
              | none => []
            nodes := [], edges := [], warnings := [] }) es = Except.ok g := by
  unfold from_jgif at h
  split at h
  · exact Except.noConfusion h
  next root hroot =>
    split at h
    · exact Except.noConfusion h
    next ns hns =>
      split at h
      · exact Except.noConfusion h
      next es hes =>
        exact ⟨root, ns, es, hroot, hns, hes, h⟩

theorem from_jgif_header {pm : ParserModel} {doc : JgifDoc} {g : BELGraph}
    (h : from_jgif pm doc = Except.ok g) :
    ∃ root, doc.graph = some root ∧ g.name = root.label ∧
      g.document = (match root.metadata with
                    | some md => insertMetadata md
                    | none => []) ∧
      g.warnings = [] := by
  rcases from_jgif_ok_elim h with ⟨root, ns, es, hroot, hns, hes, hf⟩
  have h1 := foldME_processEdge_header hf
  have h2 := foldl_proj graphHeader (processNode pm) (processNode_header pm) ns
    { name := root.label
      document :=
        match root.metadata with
        | some md => insertMetadata md
        | none => []
      nodes := [], edges := [], warnings := [] }
  have h3 := h1.trans h2
  refine ⟨root, hroot, ?_, ?_, ?_⟩
  · exact congrArg Prod.fst h3
  · exact congrArg (fun p => p.2.1) h3
  · exact congrArg (fun p => p.2.2) h3

theorem from_jgif_provenance {pm : ParserModel} {doc : JgifDoc} {g : BELGraph}
    (h : from_jgif pm doc = Except.ok g) :
    ∀ {e : Edge}, e ∈ g.edges → ∃ ev, evidenceOfDoc doc ev ∧
      evidenceContext ev = some e.context ∧ evidenceUsable ev := by
  rcases from_jgif_ok_elim h with ⟨root, ns, es, hroot, hns, hes, hf⟩
  intro e he
  rcases foldME_processEdge_mem hf he with h1 |
    ⟨ed, hmem, md, evs, ev, hmd, hevs, hevmem, hctx, hus⟩
  · rw [foldl_proj (fun gr => gr.edges) (processNode pm) (processNode_edges pm) ns] at h1
    exact absurd h1 (List.not_mem_nil e)
  · exact ⟨ev, ⟨root, es, ed, md, evs, hroot, hes, hmem, hmd, hevs, hevmem⟩, hctx, hus⟩

/-! ### `get_citation` and `evidenceContext` facts -/

theorem get_citation_ok {ev : JgifEvidence} {cit : StrDict} {t r : String}
    (hcit : ev.citation = some cit) (hdt : dictGet cit "type" = some t)
    (hdi : dictGet cit "id" = some r) :
    ∃ citD, get_citation ev = Except.ok citD := by
  cases hdn : dictGet cit "name" with
  | none =>
    refine ⟨[(CITATION_TYPE, pyStrip t), (CITATION_REFERENCE, pyStrip r)], ?_⟩
    simp only [get_citation, hcit, hdt, hdi, hdn]
  | some n =>
    refine ⟨[(CITATION_TYPE, pyStrip t), (CITATION_REFERENCE, pyStrip r),
             (CITATION_NAME, pyStrip n)], ?_⟩
    simp only [get_citation, hcit, hdt, hdi, hdn]

theorem get_citation_ne_nil {ev : JgifEvidence} {c : StrDict}
    (h : get_citation ev = Except.ok c) : c ≠ [] := by
  unfold get_citation at h
  split at h
  · exact Except.noConfusion h
  · split at h
    · exact Except.noConfusion h
    · split at h
      · exact Except.noConfusion h
      · split at h
        · cases h
          simp
        · cases h
          simp

theorem evidenceContext_elim {ev : JgifEvidence} {ctx : ControlContext}
    (h : evidenceContext ev = some ctx) :
    ∃ st ectx citD, ev.summary_text = some st ∧
      ev.experiment_context = some ectx ∧ get_citation ev = Except.ok citD ∧
      ctx = { citation := citD, evidence := some (pyStrip st),
              annotations := dictUpdate [] ectx } := by
  cases hsum : ev.summary_text with
  | none => simp [evidenceContext, hsum] at h
  | some st =>
    cases hectx : ev.experiment_context with
    | none => simp [evidenceContext, hsum, hectx] at h
    | some ectx =>
      cases hgc : get_citation ev with
      | error e => simp [evidenceContext, hsum, hectx, hgc] at h
      | ok citD =>
        simp only [evidenceContext, hsum, hectx, hgc] at h
        cases h
        exact ⟨st, ectx, citD, rfl, rfl, rfl, rfl⟩

/-! ### Totality of `from_jgif` on structurally complete documents -/

theorem processEvidence_ok_of_wf {pm : ParserModel} {stmt : Option String}
    {ev : JgifEvidence} (hwf : evidenceWFb ev = true) (g : BELGraph) :
    exOk (processEvidence pm stmt g ev) = true := by
  unfold evidenceWFb at hwf
  rw [Bool.and_eq_true, Bool.and_eq_true] at hwf
  obtain ⟨⟨h1, h2⟩, h3⟩ := hwf
  cases hcit : ev.citation with
  | none => simp [processEvidence, hcit, exOk]
  | some cit =>
    by_cases hcnil : cit = []
    · simp [processEvidence, hcit, hcnil, exOk]
    · rw [hcit] at h3
      have heq : (dictGet cit "type").isSome = (dictGet cit "id").isSome :=
        eq_of_beq h3
      cases hsum : ev.summary_text with
      | none => rw [hsum] at h1; simp at h1
      | some st =>
        cases hdt : dictGet cit "type" with
        | none =>
          cases hdi : dictGet cit "id" with
          | none => simp [processEvidence, hcit, hcnil, hdt, hdi, exOk]
          | some i =>
            rw [hdt, hdi] at heq
            simp at heq
        | some t =>
          cases hdi : dictGet cit "id" with
          | none =>
            rw [hdt, hdi] at heq
            simp at heq
          | some i =>
            by_cases hbl : pyStrip st = "" ∨ pyStrip st = placeholder_evidence
            · simp [processEvidence, hcit, hcnil, hdt, hdi, hsum, hbl, exOk]
            · obtain ⟨citD, hgc⟩ := get_citation_ok hcit hdt hdi
              cases hectx : ev.experiment_context with
              | none => rw [hectx] at h2; simp at h2
              | some ectx =>
                cases stmt with
                | none =>
                  simp [processEvidence, hcit, hcnil, hdt, hdi, hsum, hbl,
                    hgc, hectx, exOk]
                | some s =>
                  cases hp : pm.parseStatement s with
                  | error e =>
                    simp [processEvidence, hcit, hcnil, hdt, hdi, hsum, hbl,
                      hgc, hectx, hp, exOk]
                  | ok triples =>
                    simp [processEvidence, hcit, hcnil, hdt, hdi, hsum, hbl,
                      hgc, hectx, hp, exOk]

theorem processEdge_ok_of_wf {pm : ParserModel} {edge : JgifEdge}
    (hwf : edgeWFb edge = true) (g : BELGraph) :
    exOk (processEdge pm g edge) = true := by
  unfold processEdge
  split
  · rfl
  · split
    · rfl
    next md hmd =>
      split
      · rfl
      · split
        · rfl
        next evs hevs =>
          split
          · rfl
          · apply foldME_ok_of_forall
            intro b ev hev
            have hwfe : evidenceWFb ev = true := by
              simp only [edgeWFb, hmd, hevs] at hwf
              exact List.all_eq_true.mp hwf ev hev
            exact processEvidence_ok_of_wf hwfe b

theorem from_jgif_ok_of_wf {pm : ParserModel} {doc : JgifDoc}
    (hwf : docWFb doc = true) : exOk (from_jgif pm doc) = true := by
  unfold from_jgif
  split
  next hg =>
    simp only [docWFb, hg] at hwf
    exact Bool.noConfusion hwf
  next root hg =>
    split
    next hn =>
      simp only [docWFb, hg, hn, Bool.and_eq_true] at hwf
      simp at hwf
    next ns hn =>
      split
      next he =>
        simp only [docWFb, hg, he, Bool.and_eq_true] at hwf
        exact Bool.noConfusion hwf.2
      next es he =>
        simp only [docWFb, hg, he, Bool.and_eq_true] at hwf
        apply foldME_ok_of_forall
        intro b ed hed
        exact processEdge_ok_of_wf (List.all_eq_true.mp hwf.2 ed hed) b

/-! ### Error propagation in `map_cbn` -/

theorem cbnStep_error {k v : String} (hv : v ≠ "") (hsv : pyStrip v ≠ "")
    (hk : pyLower (pyStrip k) = "species_common_name")
    (hsp : dictGet species_map (pyLower (pyStrip v)) = none) (acc : StrDict) :
    exOk (cbnStep acc (k, v)) = false := by
  simp only [cbnStep, if_neg hv, if_neg hsv, if_pos hk, hsp, exOk]

theorem cbnNewContext_error {ctx : StrDict} {k v : String}
    (hmem : (k, v) ∈ ctx) (hv : v ≠ "") (hsv : pyStrip v ≠ "")
    (hk : pyLower (pyStrip k) = "species_common_name")
    (hsp : dictGet species_map (pyLower (pyStrip v)) = none) :
    exOk (cbnNewContext ctx) = false := by
  unfold cbnNewContext
  exact foldME_error_of_mem hmem (fun acc => cbnStep_error hv hsv hk hsp acc)

theorem map_cbn_evidence_error {ev : JgifEvidence} {ctx : StrDict}
    (hctx : ev.experiment_context = some ctx)
    (herr : exOk (cbnNewContext ctx) = false) :
    exOk (map_cbn_evidence ev) = false := by
  cases hc : cbnNewContext ctx with
  | error e => simp only [map_cbn_evidence, hctx, hc, exOk]
  | ok ctx' => rw [hc] at herr; simp [exOk] at herr

theorem map_cbn_edge_error {ed : JgifEdge} {md : JgifEdgeMeta}
    {evs : List JgifEvidence} {ev : JgifEvidence}
    (hmd : ed.metadata = some md) (hevs : md.evidences = some evs)
    (hmem : ev ∈ evs) (herr : exOk (map_cbn_evidence ev) = false) :
    exOk (map_cbn_edge ed) = false := by
  have hall := mapME_error_of_mem hmem herr
  cases hm : mapME map_cbn_evidence evs with
  | error e => simp only [map_cbn_edge, hmd, hevs, hm, exOk]
  | ok evs' => rw [hm] at hall; simp [exOk] at hall

theorem map_cbn_error {d : JgifDoc} {root : JgifGraph} {es : List JgifEdge}
    {ed : JgifEdge} (hg : d.graph = some root) (he : root.edges = some es)
    (hmem : ed ∈ es) (herr : exOk (map_cbn_edge ed) = false) :
    exOk (map_cbn d) = false := by
  have hall := mapME_error_of_mem hmem herr
  cases hm : mapME map_cbn_edge es with
  | error e => simp only [map_cbn, hg, he, hm, exOk]
  | ok es' => rw [hm] at hall; simp [exOk] at hall

/-! ### Frame lemmas for `map_cbn` -/

theorem map_cbn_evidence_frame {ev ev' : JgifEvidence}
    (h : map_cbn_evidence ev = Except.ok ev') : cbnEvFrame ev ev' := by
  unfold map_cbn_evidence at h
  split at h
  · cases h
    exact Or.inl ⟨by assumption, rfl⟩
  next ctx hctx =>
    split at h
    · exact Except.noConfusion h
    next ctx' hok =>
      cases h
      exact Or.inr ⟨ctx, ctx', hctx, hok, rfl⟩

theorem map_cbn_edge_frame {ed ed' : JgifEdge}
    (h : map_cbn_edge ed = Except.ok ed') : cbnEdgeFrame ed ed' := by
  unfold map_cbn_edge at h
  split at h
  · cases h
    exact ⟨rfl, rfl, Or.inl rfl⟩
  next md hmd =>
    split at h
    · cases h
      exact ⟨rfl, rfl, Or.inl rfl⟩
    next evs hevs =>
      split at h
      · exact Except.noConfusion h
      next evs' hm =>
        cases h
        refine ⟨rfl, rfl, Or.inr ⟨md, evs, evs', hmd, hevs, rfl, ?_⟩⟩
        exact List.Forall₂.imp (fun x y hxy => map_cbn_evidence_frame hxy)
          (mapME_ok_forall2 hm)

/-! ### Metadata filtering and node registration -/

theorem insertMetadata_get_general (md : StrDict) :
    ∀ (ks : List String) (acc : StrDict) (k : String),
      dictGet (ks.foldl (fun acc k =>
        match dictGet md k with
        | some v => dictSet acc k v
        | none => acc) acc) k =
      if k ∈ ks ∧ (dictGet md k).isSome then dictGet md k else dictGet acc k := by
  intro ks
  induction ks with
  | nil =>
    intro acc k
    simp
  | cons k1 ks ih =>
    intro acc k
    rw [List.foldl_cons, ih]
    by_cases hk : k ∈ ks ∧ (dictGet md k).isSome
    · rw [if_pos hk, if_pos ⟨List.mem_cons_of_mem k1 hk.1, hk.2⟩]
    · rw [if_neg hk]
      cases hmd1 : dictGet md k1 with
      | none =>
        by_cases hkk : k ∈ k1 :: ks ∧ (dictGet md k).isSome
        · exfalso
          rcases hkk with ⟨hmem, hsome⟩
          rcases List.mem_cons.mp hmem with hx | hx
          · rw [hx, hmd1] at hsome
            simp at hsome
          · exact hk ⟨hx, hsome⟩
        · rw [if_neg hkk]
      | some v =>
        rw [dictGet_dictSet]
        by_cases hk1 : k = k1
        · subst hk1
          rw [if_pos rfl, hmd1, if_pos ⟨List.mem_cons_self k ks, rfl⟩]
        · rw [if_neg hk1]
          by_cases hkk : k ∈ k1 :: ks ∧ (dictGet md k).isSome
          · exfalso
            rcases hkk with ⟨hmem, hsome⟩
            rcases List.mem_cons.mp hmem with hx | hx
            · exact hk1 hx
            · exact hk ⟨hx, hsome⟩
          · rw [if_neg hkk]

theorem insertMetadata_get (md : StrDict) (k : String) :
    dictGet (insertMetadata md) k =
      if k ∈ METADATA_INSERT_KEYS ∧ (dictGet md k).isSome then dictGet md k
      else none := by
  unfold insertMetadata
  rw [insertMetadata_get_general md METADATA_INSERT_KEYS [] k]
  rfl

theorem foldl_registerNode_mono {m : String} :
    ∀ {keys : List String} {g : BELGraph}, m ∈ g.nodes →
      m ∈ (keys.foldl registerNode g).nodes := by
  intro keys
  induction keys with
  | nil => intro g h; exact h
  | cons k keys ih =>
    intro g h
    rw [List.foldl_cons]
    exact ih (registerNode_mono k h)

theorem foldl_registerNode_mem {m : String} :
    ∀ {keys : List String} {g : BELGraph}, m ∈ keys →
      m ∈ (keys.foldl registerNode g).nodes := by
  intro keys
  induction keys with
  | nil => intro g h; cases h
  | cons k keys ih =>
    intro g h
    rw [List.foldl_cons]
    rcases List.mem_cons.mp h with h1 | h1
    · subst h1
      exact foldl_registerNode_mono (registerNode_self g m)
    · exact ih h1

/-! ### Claim theorems -/

/-- C1, counterexample: a JGIF document whose only edge is an unqualified
`hasComponent` relation yields a graph with NO edges at all — `from_jgif` does
not add the edge, contradicting the claim that unqualified relations are added
even without citation or evidence. -/
theorem claim1_counterexample :
    from_jgif pmTest docUnqual = Except.ok emptyGraph := rfl

/-- C1, amended: for every edge record whose relation is unqualified (or is
`actsIn`/`translocates`), `from_jgif` skips the record without adding any edge
and without changing the graph at all — the unqualified branch of the edge
loop is a no-op (`pass # FIXME?`). -/
theorem claim1_unqualified_no_edge (pm : ParserModel) (g : BELGraph)
    (edge : JgifEdge)
    (h : relUnqualified edge.relation = true ∨ edge.relation = some "actsIn" ∨
      edge.relation = some "translocates") :
    processEdge pm g edge = Except.ok g := by
  unfold processEdge
  by_cases hskip : edge.relation = some "actsIn" ∨ edge.relation = some "translocates"
  · rw [if_pos hskip]
  · rw [if_neg hskip]
    have hun : relUnqualified edge.relation = true := by
      rcases h with h | h | h
      · exact h
      · exact absurd (Or.inl h) hskip
      · exact absurd (Or.inr h) hskip
    cases hmd : edge.metadata with
    | none => rfl
    | some md => simp [hun]

/-- C1, witness: the amended theorem applied to a concrete `hasComponent`
edge record carrying an evidence list. -/
theorem claim1_witness :
    processEdge pmTest emptyGraph edgeUnqual = Except.ok emptyGraph :=
  claim1_unqualified_no_edge pmTest emptyGraph edgeUnqual (Or.inl rfl)

/-- C2, counterexample: an evidence record that carries a citation but no
`summary_text` key makes `from_jgif` raise an uncaught `KeyError`, so it is
not true that `from_jgif` returns a graph for every input. -/
theorem claim2_counterexample :
    from_jgif pmTest docNoSummary = Except.error (PyError.keyError "summary_text") := rfl

/-- C2, amended: `from_jgif` returns a BELGraph for every structurally
complete document (graph/nodes/edges keys present, every evidence record with
`summary_text` and `experiment_context` keys, and citations carrying `type`
exactly when they carry `id`); per-record parse failures are caught, but
structural `KeyError`s on evidence records escape. -/
theorem claim2_total_on_wellformed (pm : ParserModel) (doc : JgifDoc)
    (h : docWFb doc = true) : exOk (from_jgif pm doc) = true :=
  from_jgif_ok_of_wf h

/-- C2, witness: the amended theorem applied to a fully populated document. -/
theorem claim2_witness : exOk (from_jgif pmTest docFull) = true :=
  claim2_total_on_wellformed pmTest docFull rfl

/-- C3, counterexample: a qualified edge whose only evidence record lacks a
citation produces the empty graph — the statement is indeed dropped and
processing continues, but the returned graph records NO warning (its warning
list is empty), contradicting the claim that a MissingContext warning is
recorded. -/
theorem claim3_counterexample :
    from_jgif pmTest docNoCitation = Except.ok emptyGraph := rfl

/-- C3, amended: an evidence record lacking a citation (absent or empty), or
whose citation carries neither `type` nor `id`, or whose present
`summary_text` strips to the empty string or equals the placeholder string, is
dropped with the graph unchanged and processing continues with the next record
— but no warning of any kind is recorded: every graph `from_jgif` returns has
an empty warning list. -/
theorem claim3_dropped_without_warning (pm : ParserModel) :
    (∀ (stmt : Option String) (g : BELGraph) (ev : JgifEvidence),
      (ev.citation = none ∨ ev.citation = some [] ∨
        (∃ cit, ev.citation = some cit ∧ (dictGet cit "type").isNone ∧
          (dictGet cit "id").isNone) ∨
        (∃ st, ev.summary_text = some st ∧
          (pyStrip st = "" ∨ pyStrip st = placeholder_evidence))) →
      processEvidence pm stmt g ev = Except.ok g) ∧
    (∀ (doc : JgifDoc) (g : BELGraph), from_jgif pm doc = Except.ok g →
      g.warnings = []) := by
  constructor
  · intro stmt g ev h
    rcases h with h | h | ⟨cit, hcit, ht, hi⟩ | ⟨st, hsum, hbp⟩
    · simp [processEvidence, h]
    · simp [processEvidence, h]
    · by_cases hcnil : cit = []
      · simp [processEvidence, hcit, hcnil]
      · simp [processEvidence, hcit, hcnil, ht, hi]
    · cases hcit : ev.citation with
      | none => simp [processEvidence, hcit]
      | some cit =>
        by_cases hcnil : cit = []
        · simp [processEvidence, hcit, hcnil]
        · by_cases hci : (dictGet cit "type").isNone ∧ (dictGet cit "id").isNone
          · simp [processEvidence, hcit, hcnil, hci]
          · simp [processEvidence, hcit, hcnil, hci, hsum, hbp]
  · intro doc g hok
    obtain ⟨root, _, _, _, hw⟩ := from_jgif_header hok
    exact hw

/-- C3, witness: the amended theorem applied to a concrete evidence record
lacking a citation. -/
theorem claim3_witness :
    processEvidence pmTest none emptyGraph evNoCitation = Except.ok emptyGraph :=
  (claim3_dropped_without_warning pmTest).1 none emptyGraph evNoCitation
    (Or.inl rfl)

/-- C4: every edge added by `from_jgif` (all of which come through the
qualified-relation path) carries a non-empty citation and evidence text that
is non-empty and is not the placeholder string. -/
theorem claim4_qualified_edges_have_context (pm : ParserModel) (doc : JgifDoc)
    (g : BELGraph) (h : from_jgif pm doc = Except.ok g) :
    ∀ e ∈ g.edges, e.context.citation ≠ [] ∧
      ∃ s, e.context.evidence = some s ∧ s ≠ "" ∧ s ≠ placeholder_evidence := by
  intro e he
  obtain ⟨ev, _, hctx, husable⟩ := from_jgif_provenance h he
  obtain ⟨st, ectx, citD, hsum, hectx, hgc, hctxeq⟩ := evidenceContext_elim hctx
  obtain ⟨st', hsum', hs1, hs2⟩ := husable
  have hst : st = st' := by
    rw [hsum] at hsum'
    exact Option.some.inj hsum'
  subst hst
  constructor
  · rw [hctxeq]
    exact get_citation_ne_nil hgc
  · exact ⟨pyStrip st, by rw [hctxeq], hs1, hs2⟩

/-- C4, witness: the theorem applied to a concrete document that produces one
qualified edge. -/
theorem claim4_witness :
    from_jgif pmTest docFull = Except.ok gFull ∧
    ∀ e ∈ gFull.edges, e.context.citation ≠ [] ∧
      ∃ s, e.context.evidence = some s ∧ s ≠ "" ∧ s ≠ placeholder_evidence :=
  ⟨rfl, claim4_qualified_edges_have_context pmTest docFull gFull rfl⟩

/-- C5: the control context of every edge `from_jgif` creates is computed from
one single evidence record of the input document — the context is cleared and
rebuilt from that record's citation, stripped summary text and experiment
context, so nothing from an earlier evidence record leaks into a later edge. -/
theorem claim5_context_from_single_evidence (pm : ParserModel) (doc : JgifDoc)
    (g : BELGraph) (h : from_jgif pm doc = Except.ok g) :
    ∀ e ∈ g.edges, ∃ ev, evidenceOfDoc doc ev ∧
      evidenceContext ev = some e.context := by
  intro e he
  obtain ⟨ev, hof, hctx, _⟩ := from_jgif_provenance h he
  exact ⟨ev, hof, hctx⟩

/-- C5, witness: the theorem applied to a concrete document that produces one
qualified edge. -/
theorem claim5_witness :
    from_jgif pmTest docFull = Except.ok gFull ∧
    ∀ e ∈ gFull.edges, ∃ ev, evidenceOfDoc docFull ev ∧
      evidenceContext ev = some e.context :=
  ⟨rfl, claim5_context_from_single_evidence pmTest docFull gFull rfl⟩

/-- C6: a node record without a label is skipped leaving the graph unchanged;
a label whose term parse fails (NakedName or ParseException) is skipped
leaving the graph unchanged; a label whose term parse succeeds registers the
returned node keys without adding any edge. -/
theorem claim6_node_records (pm : ParserModel) (g : BELGraph) (node : JgifNode) :
    (node.label = none → processNode pm g node = g) ∧
    (∀ l err, node.label = some l → pm.parseTerm l = Except.error err →
      processNode pm g node = g) ∧
    (∀ l keys, node.label = some l → pm.parseTerm l = Except.ok keys →
      (processNode pm g node).edges = g.edges ∧
      ∀ k ∈ keys, k ∈ (processNode pm g node).nodes) := by
  refine ⟨?_, ?_, ?_⟩
  · intro h
    simp [processNode, h]
  · intro l err hl herr
    simp [processNode, hl, herr]
  · intro l keys hl hk
    constructor
    · exact processNode_edges pm g node
    · intro k hkmem
      have hpn : processNode pm g node = keys.foldl registerNode g := by
        simp [processNode, hl, hk]
      rw [hpn]
      exact foldl_registerNode_mem hkmem

/-- C6, witness: the theorem applied to a concrete labelled node record. -/
theorem claim6_witness :
    (processNode pmTest emptyGraph nodeX).edges = emptyGraph.edges ∧
    ∀ k ∈ ["p(HGNC:X)"], k ∈ (processNode pmTest emptyGraph nodeX).nodes :=
  (claim6_node_records pmTest emptyGraph nodeX).2.2 "p(HGNC:X)" ["p(HGNC:X)"]
    rfl rfl

/-- C7: the `convert` command exits with status 0 exactly when the produced
graph's warning list is empty, and with status 1 whenever it is not. -/
theorem claim7_convert_exit_status (g : BELGraph) :
    (convert_exit_code g = 0 ↔ g.warnings = []) ∧
    (g.warnings ≠ [] → convert_exit_code g = 1) := by
  constructor
  · constructor
    · intro h
      unfold convert_exit_code at h
      split at h
      next hlen => exact List.length_eq_zero.mp hlen
      next hlen => exact absurd h one_ne_zero
    · intro h
      unfold convert_exit_code
      rw [h]
      rfl
  · intro h
    unfold convert_exit_code
    rw [if_neg (fun hlen => h (List.length_eq_zero.mp hlen))]

/-- C7, witness: the theorem applied to a graph carrying one warning. -/
theorem claim7_witness : gWarn.warnings ≠ [] ∧ convert_exit_code gWarn = 1 :=
  ⟨by decide, (claim7_convert_exit_status gWarn).2 (by decide)⟩

/-- C8: `map_cbn` never adds or removes nodes, edges or evidence records —
the output document has the same label, metadata and nodes, the same number
of edges, and each edge is rewritten pairwise with relation and label
untouched and only the evidences' `experiment_context` fields replaced. -/
theorem claim8_map_cbn_frame (d d' : JgifDoc) (h : map_cbn d = Except.ok d') :
    ∃ root es root' es', d.graph = some root ∧ root.edges = some es ∧
      d'.graph = some root' ∧ root'.edges = some es' ∧
      root'.label = root.label ∧ root'.metadata = root.metadata ∧
      root'.nodes = root.nodes ∧ es'.length = es.length ∧
      List.Forall₂ cbnEdgeFrame es es' := by
  unfold map_cbn at h
  split at h
  · exact Except.noConfusion h
  next root hg =>
    split at h
    · exact Except.noConfusion h
    next es he =>
      split at h
      · exact Except.noConfusion h
      next es' hm =>
        cases h
        have hfr := List.Forall₂.imp (fun x y hxy => map_cbn_edge_frame hxy)
          (@mapME_ok_forall2 JgifEdge JgifEdge PyError map_cbn_edge es es' hm)
        exact ⟨root, es, { root with edges := some es' }, es', hg, he, rfl, rfl,
          rfl, rfl, rfl, hfr.length_eq.symm, hfr⟩

/-- C8, witness: the theorem applied to a concrete CBN document with one
evidence record. -/
theorem claim8_witness :
    ∃ root es root' es', docFull.graph = some root ∧ root.edges = some es ∧
      docFullCbn.graph = some root' ∧ root'.edges = some es' ∧
      root'.label = root.label ∧ root'.metadata = root.metadata ∧
      root'.nodes = root.nodes ∧ es'.length = es.length ∧
      List.Forall₂ cbnEdgeFrame es es' :=
  claim8_map_cbn_frame docFull docFullCbn rfl

/-- C9, counterexample: an evidence whose `species_common_name` value is
whitespace only — a value that after stripping and lowercasing is empty and
hence not `human`, `rat` or `mouse` — does NOT make `map_cbn` raise: the
blank value is skipped before the species lookup, so the claim's universal
statement is false. -/
theorem claim9_counterexample :
    exOk (map_cbn docSpeciesBlank) = true ∧
    dictGet species_map (pyLower (pyStrip "  ")) = none := ⟨rfl, rfl⟩

/-- C9, amended: `map_cbn` raises an uncaught `KeyError` for any evidence
whose `experiment_context` contains a `species_common_name` entry whose value
is truthy and non-blank after stripping and whose stripped, lowercased value
is not in `species_map` (`human`, `rat`, `mouse`); blank values are instead
skipped silently. -/
theorem claim9_unknown_species_raises (d : JgifDoc) (root : JgifGraph)
    (es : List JgifEdge) (ed : JgifEdge) (md : JgifEdgeMeta)
    (evs : List JgifEvidence) (ev : JgifEvidence) (ctx : StrDict) (k v : String)
    (hg : d.graph = some root) (he : root.edges = some es) (hed : ed ∈ es)
    (hmd : ed.metadata = some md) (hevs : md.evidences = some evs)
    (hev : ev ∈ evs) (hctx : ev.experiment_context = some ctx)
    (hkv : (k, v) ∈ ctx) (hv : v ≠ "") (hsv : pyStrip v ≠ "")
    (hk : pyLower (pyStrip k) = "species_common_name")
    (hsp : dictGet species_map (pyLower (pyStrip v)) = none) :
    exOk (map_cbn d) = false :=
  map_cbn_error hg he hed (map_cbn_edge_error hmd hevs hev
    (map_cbn_evidence_error hctx (cbnNewContext_error hkv hv hsv hk hsp)))

/-- C9, witness: the amended theorem applied to a document whose species value
is the unknown name `Dog`. -/
theorem claim9_witness : exOk (map_cbn docSpeciesDog) = false :=
  claim9_unknown_species_raises docSpeciesDog rootDog [edDog] edDog mdDog
    [evDog] evDog [("species_common_name", " Dog ")] "species_common_name"
    " Dog " rfl rfl (List.mem_singleton.mpr rfl) rfl rfl
    (List.mem_singleton.mpr rfl) rfl (List.mem_singleton.mpr rfl) (by decide)
    (by decide) rfl rfl

/-- C10: `from_jgif` copies into the graph document exactly those JGIF
metadata keys that are in `METADATA_INSERT_KEYS`, and the graph name equals
the JGIF `label` field (present exactly when `label` is present). -/
theorem claim10_metadata_filter (pm : ParserModel) (doc : JgifDoc)
    (g : BELGraph) (h : from_jgif pm doc = Except.ok g) :
    ∃ root, doc.graph = some root ∧ g.name = root.label ∧
      ∀ k v, dictGet g.document k = some v ↔
        (k ∈ METADATA_INSERT_KEYS ∧
          ∃ md, root.metadata = some md ∧ dictGet md k = some v) := by
  obtain ⟨root, hroot, hname, hdoc, _⟩ := from_jgif_header h
  refine ⟨root, hroot, hname, ?_⟩
  intro k v
  cases hmd : root.metadata with
  | none =>
    have hdoc' : g.document = [] := by
      rw [hmd] at hdoc
      exact hdoc
    rw [hdoc']
    constructor
    · intro hin
      exact Option.noConfusion hin
    · rintro ⟨_, md', hmd', _⟩
      exact Option.noConfusion hmd'
  | some md =>
    have hdoc' : g.document = insertMetadata md := by
      rw [hmd] at hdoc
      exact hdoc
    rw [hdoc', insertMetadata_get]
    constructor
    · intro hin
      by_cases hc : k ∈ METADATA_INSERT_KEYS ∧ (dictGet md k).isSome = true
      · rw [if_pos hc] at hin
        exact ⟨hc.1, md, rfl, hin⟩
      · rw [if_neg hc] at hin
        exact Option.noConfusion hin
    · rintro ⟨hmem, md', hmd', hget⟩
      have hmdeq : md' = md := (Option.some.inj hmd').symm
      subst hmdeq
      rw [if_pos ⟨hmem, by rw [hget]; rfl⟩]
      exact hget

/-- C10, witness: the theorem applied to a concrete document whose metadata
carries one insertable key and one extraneous key. -/
theorem claim10_witness :
    ∃ root, docFull.graph = some root ∧ gFull.name = root.label ∧
      ∀ k v, dictGet gFull.document k = some v ↔
        (k ∈ METADATA_INSERT_KEYS ∧
          ∃ md, root.metadata = some md ∧ dictGet md k = some v) :=
  claim10_metadata_filter pmTest docFull gFull rfl

end PyBEL
